import Mathlib

/-!
Verification development for a two-stage JSON validator written in Rust
(a tokenizer in `src/json/lexer.rs` and a recursive-descent parser in
`src/json/parser.rs`).  The source is embedded shallowly:

* Rust byte buffers (`Vec<u8>`) are `List Nat` of byte values.
* Rust `f64` number payloads are modelled as exact decimal numbers
  (`Decimal`: an integer mantissa over a power-of-ten exponent, kept in
  the canonical trailing-zero-free form that mirrors how `f64` values
  forget trailing zeros).  `f64::to_string` is modelled by the canonical
  decimal rendering `numToString`, which agrees with Rust's shortest
  round-trip display on every decimal literal appearing in the claims.
  IEEE rounding of long mantissas, infinities and negative zero are
  outside the fragment exercised by the claims.
* Rust panics (out-of-bounds slicing such as `&input[idx..idx + 4]`)
  are the explicit outcome `LexResult.crash`.
* The `while` loop of `tokenize` and the mutual recursion of the parser
  are written with an explicit fuel parameter so that every definition
  is structurally recursive and evaluates by `rfl`; supplying fuel
  `input.length` is proved sufficient for the tokenizer.
-/

namespace Json

/-- The error enum `TokenizerError` from `lexer.rs`. -/
inductive TokenizerError where
  | invalidString
  | invalidNumber
  | invalidLiteral
deriving DecidableEq

/-- Result of a lexer step: a value, a `TokenizerError`, or a Rust panic
(`crash`, raised by out-of-bounds slice indexing). -/
inductive LexResult (α : Type) where
  | ok (val : α)
  | error (e : TokenizerError)
  | crash
deriving DecidableEq

/-- Model of an `f64` number payload: `mantissa / 10 ^ exp10`, kept with a
trailing-zero-free mantissa (and `exp10 = 0` for integers) so that
structural equality is value equality. -/
structure Decimal where
  mantissa : Int
  exp10 : Nat
deriving DecidableEq

/-- The token enum `Token` from `lexer.rs`.  String payloads are the decoded
byte content (UTF-8 bytes, quote characters excluded). -/
inductive Token where
  | curlyOpen
  | curlyClose
  | squareOpen
  | squareClose
  | comma
  | colon
  | whiteSpace
  | string (s : List Nat)
  | number (n : Decimal)
  | bool (b : Bool)
  | null
deriving DecidableEq

/-! ## Number parsing and display -/

/-- Strip factors of ten out of a mantissa/exponent pair: the canonical form
an `f64` keeps (`2.50` and `2.5` are the same value). -/
def stripZeros : Nat → Nat → Nat × Nat
  | n, 0 => (n, 0)
  | n, e + 1 => if n % 10 = 0 then stripZeros (n / 10) e else (n, e + 1)

/-- Build the canonical `Decimal` for a sign, a digit-string mantissa and a
power-of-ten exponent. -/
def Decimal.normalize (neg : Bool) (mag : Nat) (exp : Nat) : Decimal :=
  let p := stripZeros mag exp
  { mantissa := if neg then -(p.1 : Int) else (p.1 : Int), exp10 := p.2 }

/-- Is the byte an ASCII digit? -/
def isDigitByte (b : Nat) : Bool := 48 ≤ b && b ≤ 57

def allDigits (l : List Nat) : Bool := l.all isDigitByte

def digitsToNat (l : List Nat) : Nat := l.foldl (fun acc b => acc * 10 + (b - 48)) 0

/-- Model of `str::parse::<f64>` restricted to the digit/`.`/`-` alphabet the
number scanner can hand it: an optional leading `-` (byte 45), then either
`digits (. digits?)?` or `. digits` (Rust accepts `5.` and `.5` but rejects
`.`, a bare `-`, interior hyphens and second dots). -/
def parseNumber (l : List Nat) : Option Decimal :=
  let p : Bool × List Nat :=
    match l with
    | 45 :: rest => (true, rest)
    | _ => (false, l)
  let neg := p.1
  let body := p.2
  let ip := body.takeWhile (fun b => b ≠ 46)
  match body.dropWhile (fun b => b ≠ 46) with
  | [] =>
    if ip ≠ [] ∧ allDigits ip then some (Decimal.normalize neg (digitsToNat ip) 0)
    else none
  | _ :: fp =>
    if allDigits ip ∧ allDigits fp ∧ (ip ≠ [] ∨ fp ≠ []) then
      some (Decimal.normalize neg (digitsToNat (ip ++ fp)) fp.length)
    else none

/-- Decimal digits of `n`, most significant first; the fuel argument makes the
recursion structural and any fuel above `log10 n` is enough. -/
def natToDigitsAux : Nat → Nat → List Char
  | 0, _ => []
  | fuel + 1, n =>
    if n < 10 then [Char.ofNat (48 + n)]
    else natToDigitsAux fuel (n / 10) ++ [Char.ofNat (48 + n % 10)]

def natToString (n : Nat) : String := String.mk (natToDigitsAux (n + 1) n)

/-- The sign prefix of the rendered number. -/
def numSign (d : Decimal) : String := if d.mantissa < 0 then "-" else ""

/-- The digits of the fractional part, before left zero-padding. -/
def fracDigits (d : Decimal) : List Char :=
  natToDigitsAux (d.mantissa.natAbs % 10 ^ d.exp10 + 1) (d.mantissa.natAbs % 10 ^ d.exp10)

/-- The fractional part, left-padded with zeros up to `exp10` digits (it is
already free of trailing zeros by `Decimal` canonicity). -/
def fracString (d : Decimal) : String :=
  String.mk (List.replicate (d.exp10 - (fracDigits d).length) (Char.ofNat 48) ++ fracDigits d)

/-- Model of `f64::to_string` (Rust's shortest round-trip display) on the
decimal values the scanner produces: optional sign, integer part, and for
non-integers a dot followed by the fractional digits. -/
def numToString (d : Decimal) : String :=
  if d.exp10 = 0 then numSign d ++ natToString d.mantissa.natAbs
  else numSign d ++ natToString (d.mantissa.natAbs / 10 ^ d.exp10) ++ "." ++ fracString d

/-! ## UTF-8 validity (the check inside `String::from_utf8`) -/

/-- Is the byte a UTF-8 continuation byte (`0x80..=0xBF`)? -/
def isCont (b : Nat) : Bool := 128 ≤ b && b ≤ 191

/-- Allowed second byte of a three-byte sequence headed by `b`
(`0xE0` and `0xED` restrict it to exclude overlong forms and surrogates). -/
def second3ok (b c : Nat) : Bool :=
  if b = 224 then 160 ≤ c && c ≤ 191
  else if b = 237 then 128 ≤ c && c ≤ 159
  else isCont c

/-- Allowed second byte of a four-byte sequence headed by `b`
(`0xF0` and `0xF4` restrict it to exclude overlong forms and values
beyond `U+10FFFF`). -/
def second4ok (b c : Nat) : Bool :=
  if b = 240 then 144 ≤ c && c ≤ 191
  else if b = 244 then 128 ≤ c && c ≤ 143
  else isCont c

/-- The UTF-8 well-formedness check performed by `String::from_utf8`. -/
def isUtf8 : List Nat → Bool
  | [] => true
  | b :: rest =>
    if b ≤ 127 then isUtf8 rest
    else if 194 ≤ b && b ≤ 223 then
      match rest with
      | c :: rest2 => isCont c && isUtf8 rest2
      | [] => false
    else if 224 ≤ b && b ≤ 239 then
      match rest with
      | c :: d :: rest2 => second3ok b c && isCont d && isUtf8 rest2
      | _ => false
    else if 240 ≤ b && b ≤ 244 then
      match rest with
      | c :: d :: e :: rest2 => second4ok b c && isCont d && isCont e && isUtf8 rest2
      | _ => false
    else false

/-! ## The tokenizer (`lexer.rs`) -/

/-- The closing-quote window predicate from `validate_string_token`:
`window == [b'\x22'] || (window[0] != b'\\' && window[1] == b'\x22')`.
The first disjunct compares a two-byte window with a one-byte array and is
therefore never true; it is kept verbatim. -/
def stringEndPred (a b : Nat) : Bool :=
  decide ([a, b] = [34]) || (a != 92 && b == 34)

/-- Position search underlying `windows(2).position(...)`: `findEnd a l`
scans windows `(a, l[0]), (l[0], l[1]), ...` and returns the window index
of the first match. -/
def findEnd (a : Nat) : List Nat → Option Nat
  | [] => none
  | b :: rest => if stringEndPred a b then some 0 else (findEnd b rest).map (· + 1)

/-- `l.windows(2).position(stringEndPred)` of `lexer.rs`. -/
def windowPos : List Nat → Option Nat
  | [] => none
  | a :: rest => findEnd a rest

/-- `Tokenizer::validate_string_token`: search `input[idx+1..]` for the first
window matching `stringEndPred`, add one to get the index `end` of the
closing quote, and decode `input[idx+1..idx+1+end]` (checked for UTF-8
validity, the `String::from_utf8` step). -/
def validate_string_token (input : List Nat) (idx : Nat) : LexResult Token :=
  match (windowPos (input.drop (idx + 1))).map (· + 1) with
  | some e =>
    let content := (input.drop (idx + 1)).take e
    if isUtf8 content then LexResult.ok (Token.string content)
    else LexResult.error TokenizerError.invalidString
  | none => LexResult.error TokenizerError.invalidString

/-- Is the byte part of a number run (`is_ascii_digit() || b'.' || b'-'`)? -/
def isNumByte (b : Nat) : Bool := isDigitByte b || b == 46 || b == 45

/-- `Tokenizer::validate_number_token`: take the maximal digit/`.`/`-` run
starting at `idx` and parse it as an `f64`. -/
def validate_number_token (input : List Nat) (idx : Nat) : LexResult Token :=
  let run := (input.drop idx).takeWhile isNumByte
  match parseNumber run with
  | some d => LexResult.ok (Token.number d)
  | none => LexResult.error TokenizerError.invalidNumber

/-- `Tokenizer::verify_null_token`: slice exactly `input[idx..idx+4]`
(a Rust panic — `crash` — when fewer than four bytes remain) and compare
with `null` (bytes 110,117,108,108). -/
def verify_null_token (input : List Nat) (idx : Nat) : LexResult Token :=
  if input.length < idx + 4 then LexResult.crash
  else if (input.drop idx).take 4 = [110, 117, 108, 108] then LexResult.ok Token.null
  else LexResult.error TokenizerError.invalidLiteral

/-- `Tokenizer::verify_true_token`: slice `input[idx..idx+4]` and compare with
`true` (bytes 116,114,117,101). -/
def verify_true_token (input : List Nat) (idx : Nat) : LexResult Token :=
  if input.length < idx + 4 then LexResult.crash
  else if (input.drop idx).take 4 = [116, 114, 117, 101] then LexResult.ok (Token.bool true)
  else LexResult.error TokenizerError.invalidLiteral

/-- `Tokenizer::verify_false_token`: slice `input[idx..idx+5]` and compare
with `false` (bytes 102,97,108,115,101). -/
def verify_false_token (input : List Nat) (idx : Nat) : LexResult Token :=
  if input.length < idx + 5 then LexResult.crash
  else if (input.drop idx).take 5 = [102, 97, 108, 115, 101] then LexResult.ok (Token.bool false)
  else LexResult.error TokenizerError.invalidLiteral

/-- `Tokenizer::get_token`: dispatch on the byte at `idx` (the caller
guarantees `idx < input.length`, so the `getD` default is never read). -/
def get_token (input : List Nat) (idx : Nat) : LexResult Token :=
  match input.getD idx 0 with
  | 123 => LexResult.ok Token.curlyOpen
  | 125 => LexResult.ok Token.curlyClose
  | 44 => LexResult.ok Token.comma
  | 91 => LexResult.ok Token.squareOpen
  | 93 => LexResult.ok Token.squareClose
  | 58 => LexResult.ok Token.colon
  | 110 => verify_null_token input idx
  | 102 => verify_false_token input idx
  | 116 => verify_true_token input idx
  | 34 => validate_string_token input idx
  | b => if isDigitByte b || b == 45 then validate_number_token input idx
         else LexResult.ok Token.whiteSpace

/-- The advancement `tokenize` applies after pushing a token: literal widths
for keywords, the re-stringified width of a number (`val.to_string().len()`),
the decoded length plus the two quotes for a string, and one byte for the
structural tokens. -/
def tokenWidth : Token → Nat
  | Token.bool true => 4
  | Token.null => 4
  | Token.bool false => 5
  | Token.number d => (numToString d).length
  | Token.string s => s.length + 2
  | _ => 1

/-- The `while idx < len` loop of `Tokenizer::tokenize`, with explicit fuel;
`none` means the fuel ran out (shown impossible for fuel `input.length`). -/
def tokenizeLoop (input : List Nat) : Nat → Nat → Option (LexResult (List Token))
  | 0, idx => if idx < input.length then none else some (LexResult.ok [])
  | fuel + 1, idx =>
    if idx < input.length then
      match get_token input idx with
      | LexResult.crash => some LexResult.crash
      | LexResult.error e => some (LexResult.error e)
      | LexResult.ok t =>
        if t ≠ Token.whiteSpace then
          match tokenizeLoop input fuel (idx + tokenWidth t) with
          | none => none
          | some LexResult.crash => some LexResult.crash
          | some (LexResult.error e) => some (LexResult.error e)
          | some (LexResult.ok rest) => some (LexResult.ok (t :: rest))
        else tokenizeLoop input fuel (idx + 1)
    else some (LexResult.ok [])

/-- `Tokenizer::tokenize` on a byte buffer. -/
def tokenize (input : List Nat) : Option (LexResult (List Token)) :=
  tokenizeLoop input input.length 0

end Json


namespace Json

/-! ## The parser (`parser.rs`) -/

/-- The value enum `JsonValue` from `parser.rs`.  The `HashMap<String,
JsonValue>` of an object is modelled as an association list with key-unique
insertion (`insertKV`), which has the same lookup semantics as the hash map:
inserting overwrites the value stored for an existing key. -/
inductive JsonValue where
  | object (entries : List (List Nat × JsonValue))
  | array (elems : List JsonValue)
  | string (s : List Nat)
  | number (n : Decimal)
  | bool (b : Bool)
  | null

/-- `HashMap::insert`: overwrite the binding of an existing key, otherwise
add a new one. -/
def insertKV : List (List Nat × JsonValue) → List Nat → JsonValue → List (List Nat × JsonValue)
  | [], k, v => [(k, v)]
  | (k', v') :: rest, k, v =>
    if k' = k then (k, v) :: rest else (k', v') :: insertKV rest k v

/-- `HashMap` lookup on the association-list model. -/
def lookupKV : List (List Nat × JsonValue) → List Nat → Option JsonValue
  | [], _ => none
  | (k', v') :: rest, k => if k' = k then some v' else lookupKV rest k

mutual

/-- `Parser::parse`: consume one token and dispatch.  The `Peekable` cursor of
the Rust parser is the explicit remaining-token list threaded through the
result; fuel makes the mutual recursion structural (`none` = fuel ran out,
never reached for the fuel `runParse` supplies on the claims' inputs). -/
def parse : Nat → List Token → Option (Except String (JsonValue × List Token))
  | 0, _ => none
  | fuel + 1, ts =>
    match ts with
    | Token.curlyOpen :: rest => parse_object fuel rest []
    | Token.squareOpen :: rest => parse_array fuel rest []
    | Token.string s :: rest => some (Except.ok (JsonValue.string s, rest))
    | Token.number n :: rest => some (Except.ok (JsonValue.number n, rest))
    | Token.bool b :: rest => some (Except.ok (JsonValue.bool b, rest))
    | Token.null :: rest => some (Except.ok (JsonValue.null, rest))
    | _ => some (Except.error "Unexpected token")

/-- `Parser::parse_object`: the `loop` is the recursion, `map` the
accumulated entries.  A close-brace at the head of a loop iteration
terminates the object — whether or not a comma was just consumed. -/
def parse_object : Nat → List Token → List (List Nat × JsonValue) →
    Option (Except String (JsonValue × List Token))
  | 0, _, _ => none
  | fuel + 1, ts, map =>
    match ts with
    | Token.curlyClose :: rest => some (Except.ok (JsonValue.object map, rest))
    | Token.string key :: rest =>
      match rest with
      | Token.colon :: rest2 =>
        match parse fuel rest2 with
        | none => none
        | some (Except.error e) => some (Except.error e)
        | some (Except.ok (value, rest3)) =>
          match rest3 with
          | Token.comma :: rest4 => parse_object fuel rest4 (insertKV map key value)
          | Token.curlyClose :: rest4 =>
            some (Except.ok (JsonValue.object (insertKV map key value), rest4))
          | _ => some (Except.error "Expected comma or closing curly brace")
      | _ => some (Except.error "Expected colon")
    | _ => some (Except.error "Expected string key or closing curly brace")

/-- `Parser::parse_array`: peek for a close-bracket, otherwise parse a value;
after a value a comma is consumed and the loop continues, a close-bracket
loops back without consuming (the next iteration's peek consumes it). -/
def parse_array : Nat → List Token → List JsonValue →
    Option (Except String (JsonValue × List Token))
  | 0, _, _ => none
  | fuel + 1, ts, vec =>
    match ts with
    | Token.squareClose :: rest => some (Except.ok (JsonValue.array vec, rest))
    | _ =>
      match parse fuel ts with
      | none => none
      | some (Except.error e) => some (Except.error e)
      | some (Except.ok (value, rest)) =>
        match rest with
        | Token.comma :: rest2 => parse_array fuel rest2 (vec ++ [value])
        | Token.squareClose :: _ => parse_array fuel rest (vec ++ [value])
        | _ => some (Except.error "Expected comma or closing square bracket")

end

/-- Fuel that is ample for the claims' inputs: the parser performs at most one
recursive call per two tokens consumed plus one per nesting level. -/
def runFuel (ts : List Token) : Nat := 2 * ts.length + 2

/-- The public `Parser::parse` entry point as `main.rs` uses it: parse one
value from the token stream and discard the cursor (any unconsumed tokens
are dropped, not reported). -/
def runParse (ts : List Token) : Option (Except String JsonValue) :=
  match parse (runFuel ts) ts with
  | none => none
  | some (Except.error e) => some (Except.error e)
  | some (Except.ok (v, _)) => some (Except.ok v)

end Json


namespace Json

/-! ## Width and termination lemmas for the tokenizer loop -/

theorem natToDigitsAux_length_pos (fuel n : Nat) :
    1 ≤ (natToDigitsAux (fuel + 1) n).length := by
  by_cases h : n < 10 <;> simp [natToDigitsAux, h]

theorem natToString_length_pos (n : Nat) : 1 ≤ (natToString n).length :=
  natToDigitsAux_length_pos n n

theorem numToString_length_pos (d : Decimal) : 1 ≤ (numToString d).length := by
  unfold numToString
  split
  · rw [String.length_append]
    have := natToString_length_pos d.mantissa.natAbs
    omega
  · rw [String.length_append, String.length_append, String.length_append]
    have := natToString_length_pos (d.mantissa.natAbs / 10 ^ d.exp10)
    omega

/-- Every token the loop pushes advances the scan position by at least one
byte. -/
theorem tokenWidth_pos (t : Token) : 1 ≤ tokenWidth t := by
  cases t
  case string s => show 1 ≤ s.length + 2; omega
  case number d => exact numToString_length_pos d
  case bool b => cases b <;> decide
  all_goals decide

/-- Fuel `input.length - idx` suffices for the scanning loop: the fuel-out
outcome `none` is unreachable. -/
theorem tokenizeLoop_ne_none (input : List Nat) :
    ∀ fuel idx, input.length - idx ≤ fuel → tokenizeLoop input fuel idx ≠ none := by
  intro fuel
  induction fuel with
  | zero =>
    intro idx h
    unfold tokenizeLoop
    split
    · omega
    · simp
  | succ fuel ih =>
    intro idx h
    unfold tokenizeLoop
    split
    case isTrue hlt =>
      cases hgt : get_token input idx with
      | ok t =>
        dsimp only
        by_cases hne : t = Token.whiteSpace
        · rw [if_neg (by simp [hne])]
          exact ih (idx + 1) (by omega)
        · rw [if_pos hne]
          have hw := tokenWidth_pos t
          have hrec := ih (idx + tokenWidth t) (by omega)
          cases hr : tokenizeLoop input fuel (idx + tokenWidth t) with
          | none => exact absurd hr hrec
          | some r => cases r <;> simp
      | error e => dsimp only; simp
      | crash => dsimp only; simp
    case isFalse => simp

end Json

namespace Json

/-- `HashMap` last-write-wins: looking up a key right after inserting it
returns the inserted value, whatever was bound before. -/
theorem lookupKV_insertKV (m : List (List Nat × JsonValue)) (k : List Nat) (v : JsonValue) :
    lookupKV (insertKV m k v) k = some v := by
  induction m with
  | nil => simp [insertKV, lookupKV]
  | cons hd tl ih =>
    obtain ⟨k', v'⟩ := hd
    by_cases h : k' = k
    · simp [insertKV, h, lookupKV]
    · simp [insertKV, h, lookupKV, ih]

/-! ## Claims -/

/-- C1 (counterexample): parsing the token sequence of `{"a":1,}` — object
open, key `"a"` (byte 97), colon, number 1, comma, close — does NOT fail:
it succeeds with the object mapping `"a"` to 1, because after the comma the
loop re-enters its head, where a close-brace terminates the object. -/
theorem object_trailing_comma_counterexample :
    runParse [Token.curlyOpen, Token.string [97], Token.colon, Token.number ⟨1, 0⟩,
      Token.comma, Token.curlyClose] =
      some (Except.ok (JsonValue.object [([97], JsonValue.number ⟨1, 0⟩)])) := rfl

/-- C1 (amended): an object with a trailing comma immediately before the
closing brace is accepted, exactly like the array case: the token sequence
of `{"a":1,}` parses to the object mapping `"a"` to `Number(1.0)`, consuming
the whole sequence. -/
theorem object_trailing_comma_accepted :
    parse 14 [Token.curlyOpen, Token.string [97], Token.colon, Token.number ⟨1, 0⟩,
      Token.comma, Token.curlyClose] =
      some (Except.ok (JsonValue.object [([97], JsonValue.number ⟨1, 0⟩)], [])) := rfl

/-- C2 (code bug): on the truncated literals `nul` (bytes 110,117,108) and
`fals` (bytes 102,97,108,115) the tokenizer does not return
`InvalidLiteral`: the fixed-width slice `input[idx..idx+4]` (resp. `+5`)
is out of bounds and the scan crashes (a Rust panic). -/
theorem truncated_literal_crashes :
    tokenize [110, 117, 108] = some LexResult.crash ∧
      tokenize [102, 97, 108, 115] = some LexResult.crash := ⟨rfl, rfl⟩

/-- C4 (counterexample): tokenizing `2.50` (bytes 50,46,53,48) does not yield
exactly one number token covering the four-byte run: the scanner advances
by the re-stringified width of `2.5` (three bytes) and re-examines the
final `0`, producing the two tokens `Number(2.5)` and `Number(0.0)`. -/
theorem number_rescan_counterexample :
    tokenize [50, 46, 53, 48] =
      some (LexResult.ok [Token.number ⟨25, 1⟩, Token.number ⟨0, 0⟩]) := rfl

/-- C4 (amended): each number token parses the maximal digit/`.`/`-` run, but
scanning resumes at the current position plus the width of the token's
re-stringified value, not past the consumed run.  The widths agree on
canonically written numbers (`2.5` is one token), but `2.50` re-stringifies
to the three-character `2.5`, so its last byte is scanned again and the
input yields two number tokens. -/
theorem number_width_advance :
    tokenize [50, 46, 53] = some (LexResult.ok [Token.number ⟨25, 1⟩]) ∧
      numToString ⟨25, 1⟩ = "2.5" ∧
      tokenize [50, 46, 53, 48] =
        some (LexResult.ok [Token.number ⟨25, 1⟩, Token.number ⟨0, 0⟩]) := ⟨rfl, rfl, rfl⟩

/-- C5 (code bug): tokenizing the two-byte input `""` (bytes 34,34) fails
with `InvalidString` instead of producing an empty string token: the
window predicate's first disjunct compares a two-byte window with the
one-byte array `[b'"']` and is never true, and a closing quote in the very
first position after the opening quote matches no window at all. -/
theorem empty_string_rejected :
    tokenize [34, 34] = some (LexResult.error TokenizerError.invalidString) := rfl

/-- C6: tokenizing and then parsing each scalar input `245`, `-245.23`,
`true`, `null` (as byte sequences) succeeds and yields `Number(245.0)`,
`Number(-245.23)`, `Bool(true)` and `Null` respectively. -/
theorem scalar_pipeline :
    (tokenize [50, 52, 53] = some (LexResult.ok [Token.number ⟨245, 0⟩]) ∧
      runParse [Token.number ⟨245, 0⟩] = some (Except.ok (JsonValue.number ⟨245, 0⟩))) ∧
    (tokenize [45, 50, 52, 53, 46, 50, 51] = some (LexResult.ok [Token.number ⟨-24523, 2⟩]) ∧
      runParse [Token.number ⟨-24523, 2⟩] = some (Except.ok (JsonValue.number ⟨-24523, 2⟩))) ∧
    (tokenize [116, 114, 117, 101] = some (LexResult.ok [Token.bool true]) ∧
      runParse [Token.bool true] = some (Except.ok (JsonValue.bool true))) ∧
    (tokenize [110, 117, 108, 108] = some (LexResult.ok [Token.null]) ∧
      runParse [Token.null] = some (Except.ok JsonValue.null)) :=
  ⟨⟨rfl, rfl⟩, ⟨rfl, rfl⟩, ⟨rfl, rfl⟩, ⟨rfl, rfl⟩⟩

/-- C7: parsing the token sequence of `{"a":1,"a":2}` succeeds and yields the
object in which key `"a"` (byte 97) maps to `Number(2.0)`; and in general
the last value inserted for a key is the one the resulting map returns. -/
theorem duplicate_keys_last_write_wins :
    runParse [Token.curlyOpen, Token.string [97], Token.colon, Token.number ⟨1, 0⟩,
        Token.comma, Token.string [97], Token.colon, Token.number ⟨2, 0⟩,
        Token.curlyClose] =
      some (Except.ok (JsonValue.object [([97], JsonValue.number ⟨2, 0⟩)])) ∧
    ∀ (m : List (List Nat × JsonValue)) (k : List Nat) (v : JsonValue),
      lookupKV (insertKV m k v) k = some v :=
  ⟨rfl, lookupKV_insertKV⟩

/-- C8: parsing the token sequence of `[1,]` — array open, number 1, comma,
array close — succeeds, yielding `Array([Number(1.0)])`: after the comma is
consumed the loop re-peeks and the close-bracket is legal. -/
theorem array_trailing_comma_accepted :
    runParse [Token.squareOpen, Token.number ⟨1, 0⟩, Token.comma, Token.squareClose] =
      some (Except.ok (JsonValue.array [JsonValue.number ⟨1, 0⟩])) := rfl

/-- C9: the scanning loop of `tokenize` terminates on every input: each
pushed token advances the position by at least one byte (`tokenWidth` is
positive) and skipped bytes advance it by one, so with fuel `input.length`
the loop always completes (the fuel-out outcome `none` never occurs). -/
theorem tokenize_terminates :
    (∀ t : Token, 1 ≤ tokenWidth t) ∧ ∀ input : List Nat, tokenize input ≠ none :=
  ⟨tokenWidth_pos, fun input => tokenizeLoop_ne_none input input.length 0 (by omega)⟩

/-- C9 (witness): the termination theorem applied at a concrete token and a
concrete input. -/
theorem tokenize_terminates_witness :
    1 ≤ tokenWidth Token.null ∧ tokenize [50, 46, 53, 48] ≠ none :=
  ⟨tokenize_terminates.1 Token.null, tokenize_terminates.2 [50, 46, 53, 48]⟩

end Json

namespace Json

/-- The body of a `parse_array` iteration once the peek has ruled out an
immediate close-bracket (used to reason uniformly about that branch). -/
def arrayStep (fuel : Nat) (ts : List Token) (vec : List JsonValue) :
    Option (Except String (JsonValue × List Token)) :=
  match parse fuel ts with
  | none => none
  | some (Except.error e) => some (Except.error e)
  | some (Except.ok (value, rest)) =>
    match rest with
    | Token.comma :: rest2 => parse_array fuel rest2 (vec ++ [value])
    | Token.squareClose :: _ => parse_array fuel rest (vec ++ [value])
    | _ => some (Except.error "Expected comma or closing square bracket")

theorem parse_array_nil (fuel : Nat) (vec : List JsonValue) :
    parse_array (fuel + 1) [] vec = arrayStep fuel [] vec := rfl

theorem parse_array_ne_close (fuel : Nat) (t : Token) (ts' : List Token)
    (vec : List JsonValue) (h : t ≠ Token.squareClose) :
    parse_array (fuel + 1) (t :: ts') vec = arrayStep fuel (t :: ts') vec := by
  cases t <;> first | rfl | exact absurd rfl h

/-- On success each parsing function leaves a suffix of its input token list
unconsumed: the parser only takes tokens off the front. -/
theorem parse_suffix (fuel : Nat) :
    (∀ ts v rest, parse fuel ts = some (Except.ok (v, rest)) → rest.IsSuffix ts) ∧
      (∀ ts map v rest,
        parse_object fuel ts map = some (Except.ok (v, rest)) → rest.IsSuffix ts) ∧
      (∀ ts vec v rest,
        parse_array fuel ts vec = some (Except.ok (v, rest)) → rest.IsSuffix ts) := by
  induction fuel with
  | zero =>
    refine ⟨?_, ?_, ?_⟩
    · intro ts v rest h; simp [parse] at h
    · intro ts map v rest h; simp [parse_object] at h
    · intro ts vec v rest h; simp [parse_array] at h
  | succ fuel ih =>
    obtain ⟨ihV, ihO, ihA⟩ := ih
    have harr : ∀ ts vec v rest,
        arrayStep fuel ts vec = some (Except.ok (v, rest)) → rest.IsSuffix ts := by
      intro ts vec v rest h
      unfold arrayStep at h
      cases hpv : parse fuel ts with
      | none => rw [hpv] at h; simp at h
      | some r =>
        rw [hpv] at h
        cases r with
        | error e => simp at h
        | ok p =>
          obtain ⟨value, rest1⟩ := p
          have hs1 : rest1.IsSuffix ts := ihV ts value rest1 hpv
          cases rest1 with
          | nil => simp at h
          | cons t3 rest2 =>
            cases t3
            case comma =>
              have hs2 := ihA rest2 (vec ++ [value]) v rest h
              exact (hs2.trans (List.suffix_cons _ _)).trans hs1
            case squareClose =>
              have hs2 := ihA (Token.squareClose :: rest2) (vec ++ [value]) v rest h
              exact hs2.trans hs1
            all_goals simp at h
    refine ⟨?_, ?_, ?_⟩
    · intro ts v rest h
      cases ts with
      | nil => simp [parse] at h
      | cons t ts' =>
        cases t
        case curlyOpen =>
          simp only [parse] at h
          exact (ihO ts' [] v rest h).trans (List.suffix_cons _ _)
        case squareOpen =>
          simp only [parse] at h
          exact (ihA ts' [] v rest h).trans (List.suffix_cons _ _)
        case string s =>
          simp only [parse, Option.some.injEq, Except.ok.injEq, Prod.mk.injEq] at h
          obtain ⟨-, rfl⟩ := h
          exact List.suffix_cons _ _
        case number n =>
          simp only [parse, Option.some.injEq, Except.ok.injEq, Prod.mk.injEq] at h
          obtain ⟨-, rfl⟩ := h
          exact List.suffix_cons _ _
        case bool b =>
          simp only [parse, Option.some.injEq, Except.ok.injEq, Prod.mk.injEq] at h
          obtain ⟨-, rfl⟩ := h
          exact List.suffix_cons _ _
        case null =>
          simp only [parse, Option.some.injEq, Except.ok.injEq, Prod.mk.injEq] at h
          obtain ⟨-, rfl⟩ := h
          exact List.suffix_cons _ _
        all_goals simp [parse] at h
    · intro ts map v rest h
      cases ts with
      | nil => simp [parse_object] at h
      | cons t ts' =>
        cases t
        case curlyClose =>
          simp only [parse_object, Option.some.injEq, Except.ok.injEq, Prod.mk.injEq] at h
          obtain ⟨-, rfl⟩ := h
          exact List.suffix_cons _ _
        case string key =>
          simp only [parse_object] at h
          cases ts' with
          | nil => simp at h
          | cons t2 ts'' =>
            cases t2
            case colon =>
              dsimp only at h
              cases hpv : parse fuel ts'' with
              | none => rw [hpv] at h; simp at h
              | some r =>
                rw [hpv] at h
                cases r with
                | error e => simp at h
                | ok p =>
                  obtain ⟨value, rest3⟩ := p
                  have hs1 : rest3.IsSuffix ts'' := ihV ts'' value rest3 hpv
                  cases rest3 with
                  | nil => simp at h
                  | cons t3 rest4 =>
                    cases t3
                    case comma =>
                      have hs2 := ihO rest4 (insertKV map key value) v rest h
                      exact ((((hs2.trans (List.suffix_cons _ _)).trans hs1).trans
                        (List.suffix_cons _ _)).trans (List.suffix_cons _ _))
                    case curlyClose =>
                      simp only [Option.some.injEq, Except.ok.injEq, Prod.mk.injEq] at h
                      obtain ⟨-, rfl⟩ := h
                      exact (((List.suffix_cons _ _).trans hs1).trans
                        (List.suffix_cons _ _)).trans (List.suffix_cons _ _)
                    all_goals simp at h
            all_goals simp at h
        all_goals simp [parse_object] at h
    · intro ts vec v rest h
      cases ts with
      | nil =>
        rw [parse_array_nil] at h
        exact harr [] vec v rest h
      | cons t ts' =>
        by_cases hcl : t = Token.squareClose
        · subst hcl
          simp only [parse_array, Option.some.injEq, Except.ok.injEq, Prod.mk.injEq] at h
          obtain ⟨-, rfl⟩ := h
          exact List.suffix_cons _ _
        · rw [parse_array_ne_close fuel t ts' vec hcl] at h
          exact harr (t :: ts') vec v rest h

end Json

namespace Json

/-- C3 (counterexample): the token sequence of `true false` parses
successfully: `Parser::parse` returns `Bool(true)` and leaves the `false`
token unconsumed, so a complete value followed by further tokens does
yield a successful parse of just the prefix. -/
theorem parse_trailing_tokens_counterexample :
    runParse [Token.bool true, Token.bool false] = some (Except.ok (JsonValue.bool true)) ∧
      parse (runFuel [Token.bool true, Token.bool false]) [Token.bool true, Token.bool false] =
        some (Except.ok (JsonValue.bool true, [Token.bool false])) := ⟨rfl, rfl⟩

/-- C3 (amended): on success the parser returns the value of the leading
document only: it consumes a prefix of the token sequence (the unconsumed
remainder is always a suffix of the input), and tokens after a complete
root value are neither examined nor reported — the tokens of `true false`
parse successfully to `Bool(true)`. -/
theorem parse_leading_value :
    (∀ fuel ts v rest,
        parse fuel ts = some (Except.ok (v, rest)) → rest.IsSuffix ts) ∧
      runParse [Token.bool true, Token.bool false] = some (Except.ok (JsonValue.bool true)) :=
  ⟨fun fuel => (parse_suffix fuel).1, rfl⟩

/-- C3 (witness): the prefix-consumption theorem applied at the concrete
`true false` token sequence. -/
theorem parse_leading_value_witness :
    List.IsSuffix [Token.bool false] [Token.bool true, Token.bool false] ∧
      runParse [Token.bool true, Token.bool false] = some (Except.ok (JsonValue.bool true)) :=
  ⟨parse_leading_value.1 6 [Token.bool true, Token.bool false] (JsonValue.bool true)
      [Token.bool false] rfl,
    parse_leading_value.2⟩

end Json

namespace Json

/-! ## UTF-8 lemmas: a valid buffer splits at any ASCII byte -/

theorem isCont_ge (c : Nat) (h : isCont c = true) : 128 ≤ c := by
  simp [isCont] at h; omega

theorem second3ok_ge (b c : Nat) (h : second3ok b c = true) : 128 ≤ c := by
  unfold second3ok at h
  split at h
  · simp at h; omega
  · split at h
    · simp at h; omega
    · exact isCont_ge c h

theorem second4ok_ge (b c : Nat) (h : second4ok b c = true) : 128 ≤ c := by
  unfold second4ok at h
  split at h
  · simp at h; omega
  · split at h
    · simp at h; omega
    · exact isCont_ge c h

/-- Manual one-step unfolding of `isUtf8` on a cons cell (the nested matches
compile to a composite matcher, so this equation is proved by cases on the
shape of `rest`). -/
theorem isUtf8_cons_eq (b : Nat) (rest : List Nat) :
    isUtf8 (b :: rest) =
      if b ≤ 127 then isUtf8 rest
      else if 194 ≤ b && b ≤ 223 then
        match rest with
        | c :: rest2 => isCont c && isUtf8 rest2
        | [] => false
      else if 224 ≤ b && b ≤ 239 then
        match rest with
        | c :: d :: rest2 => second3ok b c && isCont d && isUtf8 rest2
        | _ => false
      else if 240 ≤ b && b ≤ 244 then
        match rest with
        | c :: d :: e :: rest2 => second4ok b c && isCont d && isCont e && isUtf8 rest2
        | _ => false
      else false := by
  match rest with
  | [] => rfl
  | [c] => rfl
  | [c, d] => rfl
  | c :: d :: e :: rest2 => rfl

theorem isUtf8_cons_ascii (b : Nat) (rest : List Nat) (h1 : b ≤ 127)
    (h2 : isUtf8 rest = true) : isUtf8 (b :: rest) = true := by
  rw [isUtf8_cons_eq, if_pos h1]
  exact h2

theorem isUtf8_cons2 (b c : Nat) (rest : List Nat) (hb1 : 194 ≤ b) (hb2 : b ≤ 223)
    (hc : isCont c = true) (h : isUtf8 rest = true) : isUtf8 (b :: c :: rest) = true := by
  rw [isUtf8_cons_eq]
  rw [if_neg (by omega), if_pos (by simp only [Bool.and_eq_true, decide_eq_true_eq]; omega)]
  dsimp only
  rw [Bool.and_eq_true]
  exact ⟨hc, h⟩

theorem isUtf8_cons3 (b c d : Nat) (rest : List Nat) (hb1 : 224 ≤ b) (hb2 : b ≤ 239)
    (hc : second3ok b c = true) (hd : isCont d = true) (h : isUtf8 rest = true) :
    isUtf8 (b :: c :: d :: rest) = true := by
  rw [isUtf8_cons_eq]
  rw [if_neg (by omega),
    if_neg (by simp only [Bool.and_eq_true, decide_eq_true_eq]; omega),
    if_pos (by simp only [Bool.and_eq_true, decide_eq_true_eq]; omega)]
  dsimp only
  rw [Bool.and_eq_true, Bool.and_eq_true]
  exact ⟨⟨hc, hd⟩, h⟩

theorem isUtf8_cons4 (b c d e : Nat) (rest : List Nat) (hb1 : 240 ≤ b) (hb2 : b ≤ 244)
    (hc : second4ok b c = true) (hd : isCont d = true) (he : isCont e = true)
    (h : isUtf8 rest = true) : isUtf8 (b :: c :: d :: e :: rest) = true := by
  rw [isUtf8_cons_eq]
  rw [if_neg (by omega),
    if_neg (by simp only [Bool.and_eq_true, decide_eq_true_eq]; omega),
    if_neg (by simp only [Bool.and_eq_true, decide_eq_true_eq]; omega),
    if_pos (by simp only [Bool.and_eq_true, decide_eq_true_eq]; omega)]
  dsimp only
  rw [Bool.and_eq_true, Bool.and_eq_true, Bool.and_eq_true]
  exact ⟨⟨⟨hc, hd⟩, he⟩, h⟩

/-- Inversion for `isUtf8` on a non-empty buffer: the head byte starts a one-,
two-, three- or four-byte sequence whose continuation bytes follow it. -/
theorem isUtf8_cons_inv (b : Nat) (rest : List Nat) (h : isUtf8 (b :: rest) = true) :
    (b ≤ 127 ∧ isUtf8 rest = true) ∨
    (∃ c rest2, rest = c :: rest2 ∧ 194 ≤ b ∧ b ≤ 223 ∧ isCont c = true ∧
      isUtf8 rest2 = true) ∨
    (∃ c d rest2, rest = c :: d :: rest2 ∧ 224 ≤ b ∧ b ≤ 239 ∧ second3ok b c = true ∧
      isCont d = true ∧ isUtf8 rest2 = true) ∨
    (∃ c d e rest2, rest = c :: d :: e :: rest2 ∧ 240 ≤ b ∧ b ≤ 244 ∧
      second4ok b c = true ∧ isCont d = true ∧ isCont e = true ∧ isUtf8 rest2 = true) := by
  rw [isUtf8_cons_eq] at h
  by_cases h1 : b ≤ 127
  · rw [if_pos h1] at h
    exact Or.inl ⟨h1, h⟩
  rw [if_neg h1] at h
  by_cases h2 : (194 ≤ b && b ≤ 223) = true
  · rw [if_pos h2] at h
    simp only [Bool.and_eq_true, decide_eq_true_eq] at h2
    cases rest with
    | nil => simp at h
    | cons c rest2 =>
      dsimp only at h
      rw [Bool.and_eq_true] at h
      exact Or.inr (Or.inl ⟨c, rest2, rfl, h2.1, h2.2, h.1, h.2⟩)
  rw [if_neg h2] at h
  by_cases h3 : (224 ≤ b && b ≤ 239) = true
  · rw [if_pos h3] at h
    simp only [Bool.and_eq_true, decide_eq_true_eq] at h3
    cases rest with
    | nil => simp at h
    | cons c rest1 =>
      cases rest1 with
      | nil => simp at h
      | cons d rest2 =>
        dsimp only at h
        rw [Bool.and_eq_true, Bool.and_eq_true] at h
        exact Or.inr (Or.inr (Or.inl ⟨c, d, rest2, rfl, h3.1, h3.2, h.1.1, h.1.2, h.2⟩))
  rw [if_neg h3] at h
  by_cases h4 : (240 ≤ b && b ≤ 244) = true
  · rw [if_pos h4] at h
    simp only [Bool.and_eq_true, decide_eq_true_eq] at h4
    cases rest with
    | nil => simp at h
    | cons c rest1 =>
      cases rest1 with
      | nil => simp at h
      | cons d rest1 =>
        cases rest1 with
        | nil => simp at h
        | cons e rest2 =>
          dsimp only at h
          rw [Bool.and_eq_true, Bool.and_eq_true, Bool.and_eq_true] at h
          exact Or.inr (Or.inr (Or.inr
            ⟨c, d, e, rest2, rfl, h4.1, h4.2, h.1.1.1, h.1.1.2, h.1.2, h.2⟩))
  rw [if_neg h4] at h
  simp at h

end Json

namespace Json

/-- A valid UTF-8 buffer splits at any ASCII byte: every multi-byte sequence
has continuation bytes at or above 128, so an ASCII byte is always a whole
one-byte sequence and both sides of it are themselves valid. -/
theorem isUtf8_split (q : Nat) (hq : q ≤ 127) :
    ∀ n xs ys, xs.length ≤ n → isUtf8 (xs ++ q :: ys) = true →
      isUtf8 xs = true ∧ isUtf8 ys = true := by
  intro n
  induction n with
  | zero =>
    intro xs ys hlen h
    have hx : xs = [] := List.eq_nil_of_length_eq_zero (by omega)
    subst hx
    rw [List.nil_append] at h
    rw [isUtf8_cons_eq, if_pos hq] at h
    exact ⟨rfl, h⟩
  | succ n ihn =>
    intro xs ys hlen h
    cases xs with
    | nil =>
      rw [List.nil_append] at h
      rw [isUtf8_cons_eq, if_pos hq] at h
      exact ⟨rfl, h⟩
    | cons b xs1 =>
      rw [List.cons_append] at h
      rcases isUtf8_cons_inv b (xs1 ++ q :: ys) h with
        ⟨h1, hrest⟩ | ⟨c, rest2, heq, hb1, hb2, hc, hrest⟩ |
        ⟨c, d, rest2, heq, hb1, hb2, hc, hd, hrest⟩ |
        ⟨c, d, e, rest2, heq, hb1, hb2, hc, hd, he, hrest⟩
      · obtain ⟨hx, hy⟩ := ihn xs1 ys (by simp at hlen; omega) hrest
        exact ⟨isUtf8_cons_ascii b xs1 h1 hx, hy⟩
      · cases xs1 with
        | nil =>
          rw [List.nil_append] at heq
          injection heq with hcq _
          have := isCont_ge c hc
          omega
        | cons x xs2 =>
          rw [List.cons_append] at heq
          injection heq with hxc hrest2
          subst hxc
          rw [← hrest2] at hrest
          obtain ⟨hx, hy⟩ := ihn xs2 ys (by simp at hlen; omega) hrest
          exact ⟨isUtf8_cons2 b _ xs2 hb1 hb2 hc hx, hy⟩
      · cases xs1 with
        | nil =>
          rw [List.nil_append] at heq
          injection heq with hcq _
          have := second3ok_ge b c hc
          omega
        | cons x xs2 =>
          rw [List.cons_append] at heq
          injection heq with hxc heq2
          subst hxc
          cases xs2 with
          | nil =>
            rw [List.nil_append] at heq2
            injection heq2 with hdq _
            have := isCont_ge d hd
            omega
          | cons y xs3 =>
            rw [List.cons_append] at heq2
            injection heq2 with hyd hrest2
            subst hyd
            rw [← hrest2] at hrest
            obtain ⟨hx, hy⟩ := ihn xs3 ys (by simp at hlen; omega) hrest
            exact ⟨isUtf8_cons3 b _ _ xs3 hb1 hb2 hc hd hx, hy⟩
      · cases xs1 with
        | nil =>
          rw [List.nil_append] at heq
          injection heq with hcq _
          have := second4ok_ge b c hc
          omega
        | cons x xs2 =>
          rw [List.cons_append] at heq
          injection heq with hxc heq2
          subst hxc
          cases xs2 with
          | nil =>
            rw [List.nil_append] at heq2
            injection heq2 with hdq _
            have := isCont_ge d hd
            omega
          | cons y xs3 =>
            rw [List.cons_append] at heq2
            injection heq2 with hyd heq3
            subst hyd
            cases xs3 with
            | nil =>
              rw [List.nil_append] at heq3
              injection heq3 with heq _
              have := isCont_ge e he
              omega
            | cons z xs4 =>
              rw [List.cons_append] at heq3
              injection heq3 with hze hrest2
              subst hze
              rw [← hrest2] at hrest
              obtain ⟨hx, hy⟩ := ihn xs4 ys (by simp at hlen; omega) hrest
              exact ⟨isUtf8_cons4 b _ _ _ xs4 hb1 hb2 hc hd he hx, hy⟩

end Json

namespace Json

theorem stringEndPred_close (a b : Nat) (h : stringEndPred a b = true) : b = 34 := by
  unfold stringEndPred at h
  rw [Bool.or_eq_true] at h
  rcases h with h | h
  · rw [decide_eq_true_eq] at h
    simp at h
  · rw [Bool.and_eq_true] at h
    simpa using h.2

/-- A successful window search points at a closing quote: the byte right
after window position `pos` is a quote. -/
theorem findEnd_close (l : List Nat) : ∀ a pos, findEnd a l = some pos →
    pos < l.length ∧ l.getD pos 0 = 34 := by
  induction l with
  | nil => intro a pos h; simp [findEnd] at h
  | cons b rest ih =>
    intro a pos h
    unfold findEnd at h
    by_cases hp : stringEndPred a b = true
    · rw [if_pos hp] at h
      injection h with h0
      subst h0
      exact ⟨by simp, by simpa using stringEndPred_close a b hp⟩
    · rw [if_neg hp] at h
      rw [Option.map_eq_some'] at h
      obtain ⟨p, hp2, hpos⟩ := h
      obtain ⟨hlt, hget⟩ := ih b p hp2
      subst hpos
      refine ⟨by simp; omega, ?_⟩
      simpa using hget

theorem list_decomp (l : List Nat) (i : Nat) (h : i < l.length) :
    l = l.take i ++ l.getD i 0 :: l.drop (i + 1) := by
  conv_lhs => rw [← List.take_append_drop i l]
  rw [List.drop_eq_getElem_cons h, List.getD_eq_getElem l 0 h]

/-- C10: when the tokenizer is built from valid UTF-8 and the byte at `idx`
is a quote, the UTF-8 decoding inside string scanning never fails: if
`validate_string_token` reports `InvalidString`, the window search found no
closing quote — the decode-failure branch is unreachable because the bytes
between the two quotes of a valid buffer are themselves valid UTF-8. -/
theorem string_decode_total_on_utf8 (input : List Nat) (idx : Nat)
    (hutf : isUtf8 input = true) (hq : input.getD idx 0 = 34)
    (herr : validate_string_token input idx = LexResult.error TokenizerError.invalidString) :
    windowPos (input.drop (idx + 1)) = none := by
  cases hw : windowPos (input.drop (idx + 1)) with
  | none => rfl
  | some pos =>
    exfalso
    have hidx : idx < input.length := by
      by_contra hge
      rw [List.getD_eq_default input 0 (by omega)] at hq
      omega
    have hsplit1 : isUtf8 (input.drop (idx + 1)) = true := by
      have hdec := list_decomp input idx hidx
      rw [hq] at hdec
      rw [hdec] at hutf
      exact (isUtf8_split 34 (by omega) (input.take idx).length (input.take idx)
        (input.drop (idx + 1)) (le_refl _) hutf).2
    have hfe : ∃ a rest, input.drop (idx + 1) = a :: rest ∧ findEnd a rest = some pos := by
      cases htl : input.drop (idx + 1) with
      | nil => rw [htl] at hw; simp [windowPos] at hw
      | cons a rest =>
        rw [htl] at hw
        exact ⟨a, rest, rfl, by simpa [windowPos] using hw⟩
    obtain ⟨a, rest, htl, hfind⟩ := hfe
    obtain ⟨hlt, hget⟩ := findEnd_close rest a pos hfind
    have hget2 : (input.drop (idx + 1)).getD (pos + 1) 0 = 34 := by
      rw [htl]; simpa using hget
    have hlt2 : pos + 1 < (input.drop (idx + 1)).length := by
      rw [htl]; simp; omega
    have hdec2 := list_decomp (input.drop (idx + 1)) (pos + 1) hlt2
    rw [hget2] at hdec2
    have hcontent : isUtf8 ((input.drop (idx + 1)).take (pos + 1)) = true := by
      rw [hdec2] at hsplit1
      exact (isUtf8_split 34 (by omega) ((input.drop (idx + 1)).take (pos + 1)).length
        ((input.drop (idx + 1)).take (pos + 1))
        ((input.drop (idx + 1)).drop (pos + 1 + 1)) (le_refl _) hsplit1).1
    unfold validate_string_token at herr
    rw [hw] at herr
    dsimp only [Option.map] at herr
    rw [if_pos hcontent] at herr
    simp at herr

/-- C10 (witness): the theorem applied at the concrete valid-UTF-8 input
`"a` (bytes 34, 97), whose string scan fails only because no closing quote
exists. -/
theorem string_decode_total_on_utf8_witness :
    isUtf8 [34, 97] = true ∧ [34, 97].getD 0 0 = 34 ∧
      validate_string_token [34, 97] 0 = LexResult.error TokenizerError.invalidString ∧
      windowPos ([34, 97].drop (0 + 1)) = none :=
  ⟨by decide, by decide, by decide,
    string_decode_total_on_utf8 [34, 97] 0 (by decide) (by decide) (by decide)⟩

end Json
